import Mathlib

/-!
Verification of the local-regional trend-seasonal decomposition engine of the
groundwater-daily-estimation-tsd repository.

The embedding follows src/src/groundwater_estimation/core/local_regional.py
(class LocalRegionalDecomposition) and
src/src/groundwater_estimation/core/data_loader.py (DataLoader.get_well_data).

Modelling conventions:
- pandas timestamps are modelled as integer day ordinals (the data is daily
  and the code only ever steps dates in whole days; pd.to_numeric turns them
  into integers before any interpolation, and Timedelta.days between whole-day
  stamps is exact integer difference);
- missing water levels (NaN) are modelled as Option none, and float NaN
  propagation through arithmetic is modelled by Option-propagating operations;
- ordinary float arithmetic is modelled as exact rational arithmetic;
- a DataFrame carrying one well is modelled as a list of rows (date, level),
  with the column schema already resolved (the column-name detection of the
  source is the resolved identity mapping Date/Nappe here); the frames built
  and consumed by _combine_components, where column-presence checks matter,
  are modelled as explicit named-column frames (PFrame below);
- the Julian-day branches of the source (date_col == Jour) perform a
  representation change that is the identity on our numeric day ordinals, so
  the embedding covers data whose date column is a true calendar Date column;
- Python exceptions are modelled with Except String.
-/

deriving instance DecidableEq for Except

/-- Value of a water-level cell: some q for a float value, none for NaN. -/
abbrev Val : Type := Option ℚ

/-- NaN-propagating addition, as float addition behaves on NaN. -/
def vadd : Val → Val → Val
  | some a, some b => some (a + b)
  | _, _ => none

/-- NaN-propagating subtraction, as float subtraction behaves on NaN. -/
def vsub : Val → Val → Val
  | some a, some b => some (a - b)
  | _, _ => none

/-- One row of a single-well frame: a date (day ordinal) and a level cell. -/
structure WellRow where
  date : ℤ
  level : Val
deriving DecidableEq, Repr

/-- A single-well DataFrame with resolved schema, as a list of rows. -/
abbrev WellData : Type := List WellRow

/-- The date column of a well frame. -/
def dates (w : WellData) : List ℤ := w.map (·.date)

/-- The water-level column of a well frame. -/
def levels (w : WellData) : List Val := w.map (·.level)

/-- Dates of the rows holding an actual (non-NaN) observation; this is
well_data[well_data[water_level_col].notna()][date_col].values in the source. -/
def observedDates (w : WellData) : List ℤ :=
  (w.filter (fun r => r.level.isSome)).map (·.date)

/-- Minimum of the date column (well_data[date_col].min()); 0 on an empty
frame, where the source would produce NaN. -/
def minDate (w : WellData) : ℤ :=
  match w with
  | [] => 0
  | r :: rs => rs.foldl (fun m x => min m x.date) r.date

/-- Maximum of the date column (well_data[date_col].max()); 0 on an empty
frame, where the source would produce NaN. -/
def maxDate (w : WellData) : ℤ :=
  match w with
  | [] => 0
  | r :: rs => rs.foldl (fun m x => max m x.date) r.date

/-- Number of distinct dates among the rows, observed or not:
well_data[date_col].nunique() in _detect_mode. -/
def uniqueDateCount (w : WellData) : ℕ := (dates w).dedup.length

/-- The inclusive calendar span in days,
(well_data[date_col].max() - well_data[date_col].min()).days + 1. -/
def daySpan (w : WellData) : ℤ := maxDate w - minDate w + 1

/-- LocalRegionalDecomposition._detect_mode.  The first branch is taken when
the frame has a literal Date column (hasDateCol); the second compares raw row
counts against the reference frame.  The float comparison density > 0.7 is
the exact integer comparison 10 u > 7 span.  On an empty frame with a Date
column the source hits NaN/NaT arithmetic on the empty date range; we model
that murky corner as a failure (no claim depends on it). -/
def detectMode (well ref : WellData) (hasDateCol : Bool) : Except String String :=
  if hasDateCol then
    if well = [] then .error "empty date range"
    else
      let u : ℤ := uniqueDateCount well
      let span : ℤ := daySpan well
      .ok (if 10 * u > 7 * span then "calibration" else "estimation")
  else
    .ok (if 10 * well.length > 7 * ref.length then "calibration" else "estimation")

/-- LocalRegionalDecomposition._generate_biweekly_dates: dates stepped 14 days
from the first to the last date of the frame.  The while loop of the source
executes (last - first) / 14 + 1 times (floor division); an empty frame
yields no dates, as the NaN comparison in the source loop is false. -/
def generateBiweeklyDates (w : WellData) : List ℤ :=
  if w = [] then []
  else
    (List.range (((maxDate w - minDate w) / 14).toNat + 1)).map
      (fun i => minDate w + 14 * (i : ℤ))

/-- First row minimising the absolute date distance to d, as
abs(well_data[date_col] - manual_date).idxmin() selects the first minimising
position (the frame was reset_index-ed at the top of _get_manual_measurements).
Returns none exactly on an empty frame, where idxmin raises in the source. -/
def argminAbsDate (w : WellData) (d : ℤ) : Option WellRow :=
  w.foldl
    (fun acc r =>
      match acc with
      | none => some r
      | some b => if |r.date - d| < |b.date - d| then some r else some b)
    none

/-- One step of the nearest-measurement loop in _get_manual_measurements: the
closest row within 7 days of the manual date d, its date overwritten with d
(some (d, level)); none when the closest row is farther than 7 days; an error
on an empty frame, where idxmin raises ValueError. -/
def closestRow (w : WellData) (d : ℤ) : Except String (Option (ℤ × Val)) :=
  match argminAbsDate w d with
  | none => .error "attempt to get argmin of an empty sequence"
  | some b => .ok (if |b.date - d| ≤ 7 then some (d, b.level) else none)

/-- The nearest-measurement loop of _get_manual_measurements: one measurement
appended per manual date whose nearest observation lies within 7 days, with
the first idxmin on an empty frame aborting the whole loop. -/
def collectClosest (w : WellData) : List ℤ → Except String (List (ℤ × Val))
  | [] => .ok []
  | d :: ds =>
    (closestRow w d).bind fun m =>
      (collectClosest w ds).bind fun rest =>
        .ok (match m with | some p => p :: rest | none => rest)

/-- LocalRegionalDecomposition._get_manual_measurements for frames with a Date
column.  First the rows whose date is one of the manual dates and whose level
is not NaN are taken directly; if there are none, each manual date is matched
to the nearest observation within a 7-day tolerance, whose timestamp is
overwritten with the manual date.  The result is the (date, level) content of
the returned frame. -/
def getManualMeasurements (w : WellData) (manualDates : List ℤ) :
    Except String (List (ℤ × Val)) :=
  let direct := w.filter (fun r => r.date ∈ manualDates ∧ r.level.isSome)
  if direct.length > 0 then
    .ok (direct.map (fun r => (r.date, r.level)))
  else
    collectClosest w manualDates

/-- Linear segment of np.interp between the points (x0, y0) and (x1, y1),
evaluated at x; NaN values propagate as in float arithmetic. -/
def vlin (x0 : ℤ) (y0 : Val) (x1 : ℤ) (y1 : Val) (x : ℤ) : Val :=
  match y0, y1 with
  | some a, some b => some (a + (b - a) * ((x - x0 : ℤ) : ℚ) / ((x1 - x0 : ℤ) : ℚ))
  | _, _ => none

/-- Tail recursion of np.interp: (x0, y0) is the last sample point at or below
the query; clamps to y0 beyond the last point, matches sample points exactly. -/
def interpGo (x0 : ℤ) (y0 : Val) : List (ℤ × Val) → ℤ → Val
  | [], _ => y0
  | (x1, y1) :: rest, x =>
    if x < x1 then vlin x0 y0 x1 y1 x
    else if x = x1 then y1
    else interpGo x1 y1 rest x

/-- np.interp(x, xp, fp) for sample points pts = zip xp fp sorted by
ascending x, as the pipeline produces them: piecewise-linear between the
points, the exact fp value at a sample point, and clamped to the boundary
values outside the sampled range.  np.interp on an empty xp raises in the
source; the pipeline never calls it that way, and we return NaN there. -/
def interpPoints (pts : List (ℤ × Val)) (x : ℤ) : Val :=
  match pts with
  | [] => none
  | (x0, y0) :: rest => if x ≤ x0 then y0 else interpGo x0 y0 rest x

/-- Count of rows with a non-NaN level, the size of the regression mask in
_simple_linear_trend. -/
def validObsCount (w : WellData) : ℕ := (w.filter (fun r => r.level.isSome)).length

/-- The (index, value) pairs entering the regression of _simple_linear_trend:
x is the sequential position, NaN rows are masked out. -/
def regressionPoints (w : WellData) : List (ℚ × ℚ) :=
  w.enum.filterMap (fun p => p.2.level.map (fun y => ((p.1 : ℚ), y)))

/-- LocalRegionalDecomposition._simple_linear_trend: ordinary least squares of
level against sequential index, ignoring NaN rows; all-zero when fewer than 2
valid observations remain.  slope and intercept are the scipy.stats.linregress
closed forms. -/
def simpleLinearTrend (w : WellData) : List Val :=
  let pts := regressionPoints w
  if pts.length < 2 then List.replicate w.length (some 0)
  else
    let m : ℚ := pts.length
    let sx : ℚ := (pts.map (·.1)).sum
    let sy : ℚ := (pts.map (·.2)).sum
    let sxy : ℚ := (pts.map (fun p => p.1 * p.2)).sum
    let sxx : ℚ := (pts.map (fun p => p.1 * p.1)).sum
    let slope := (m * sxy - sx * sy) / (m * sxx - sx * sx)
    let intercept := (sy - slope * sx) / m
    (List.range w.length).map (fun i => some (slope * (i : ℚ) + intercept))

/-- LocalRegionalDecomposition._interpolate_manual_measurements: fewer than 2
manual measurements fall back to the simple linear trend; otherwise the
measurements are sorted by date and np.interp evaluates them at every date of
the well frame. -/
def interpolateManualMeasurements (w : WellData) (mm : List (ℤ × Val)) : List Val :=
  if mm.length < 2 then simpleLinearTrend w
  else
    let sorted := List.insertionSort (fun a b => a.1 ≤ b.1) mm
    (dates w).map (interpPoints sorted)

/-- LocalRegionalDecomposition._calculate_trend_component: resolve the anchor
dates (biweekly when none are given), recover the manual measurements, then
interpolate them when more than one was recovered, falling back to the simple
linear trend otherwise; the result pairs the well dates with the trend values,
as the returned two-column frame does. -/
def calculateTrendComponent (w : WellData) (manualDates : Option (List ℤ)) :
    Except String (List (ℤ × Val)) :=
  let md := manualDates.getD (generateBiweeklyDates w)
  (getManualMeasurements w md).map fun mm =>
    (dates w).zip
      (if mm.length > 1 then interpolateManualMeasurements w mm
       else simpleLinearTrend w)

/-- LocalRegionalDecomposition._calculate_local_fluctuations for the pipeline
frames, which always carry their level and trend columns: the residual
observed minus trend on the well timeline (the subtraction aligns on the
shared index, hence positionally).  NaN rows yield NaN residuals. -/
def calculateLocalFluctuations (w : WellData) (tgtTrend : List (ℤ × Val)) :
    List (ℤ × Val) :=
  (dates w).zip (List.zipWith vsub (levels w) (tgtTrend.map (·.2)))

/-- LocalRegionalDecomposition._calculate_regional_fluctuations: residuals of
the reference observations against the reference trend, mapped positionally
onto the target dates when the lengths already agree, interpolated onto the
target dates otherwise, and zero everywhere when the reference frame is empty
(the level and trend columns of the pipeline frames are always present, so
the guard reduces to the emptiness check).  The source subtracts numpy arrays,
which requires the reference frame and its trend to have equal length; the
pipeline guarantees that, and zipWith realises it. -/
def calculateRegionalFluctuations (ref : WellData)
    (refTrend tgtTrend : List (ℤ × Val)) : List (ℤ × Val) :=
  if ref.length > 0 then
    let refFl := List.zipWith vsub (levels ref) (refTrend.map (·.2))
    if refFl.length = tgtTrend.length then
      (tgtTrend.map (·.1)).zip refFl
    else
      (tgtTrend.map (·.1)).map
        (fun d => (d, interpPoints ((dates ref).zip refFl) d))
  else
    tgtTrend.map (fun p => (p.1, (some 0 : Val)))

/-- A pandas DataFrame viewed as its row count and its named columns in
order; only what _combine_components inspects. -/
structure PFrame where
  nRows : ℕ
  cols : List (String × List Val)
deriving DecidableEq, Repr

/-- Column lookup, df[c] when present. -/
def getCol (f : PFrame) (c : String) : Option (List Val) :=
  (f.cols.find? (fun p => p.1 = c)).map (·.2)

/-- Column assignment df[c] = v: pandas overwrites an existing column in
place and appends a new one at the end. -/
def setCol (f : PFrame) (c : String) (v : List Val) : PFrame :=
  ⟨f.nRows,
   if (f.cols.find? (fun p => p.1 = c)).isSome then
     f.cols.map (fun p => if p.1 = c then (c, v) else p)
   else
     f.cols ++ [(c, v)]⟩

/-- The two-column frame a component builder returns: the date column next to
the named value column. -/
def pairsToFrame (valCol : String) (ps : List (ℤ × Val)) : PFrame :=
  ⟨ps.length, [("Date", ps.map (fun p => some (p.1 : ℚ))), (valCol, ps.map (·.2))]⟩

/-- The target-well frame as _combine_components copies it. -/
def wellToFrame (w : WellData) : PFrame :=
  ⟨w.length, [("Date", (dates w).map (fun d => some (d : ℚ))), ("Nappe", levels w)]⟩

/-- The estimated column _combine_components accumulates when a trend column
exists: start from the trend values, then add the mode-selected fluctuation:
local in calibration with a regional fallback (a missing regional column
there is a KeyError), regional in estimation with a silent fallback to the
bare trend, and in the auto branch re-decide locally by comparing the well
row count against 0.7 times the regional row count.  Additions are
positional. -/
def estColumn (tv : List Val) (nWell nRegional : ℕ)
    (regionalF localF : PFrame) (mode : String) : Except String (List Val) :=
  if mode = "calibration" then
    match getCol localF "local_fluctuation" with
    | some lv => .ok (List.zipWith vadd tv lv)
    | none =>
      match getCol regionalF "regional_fluctuation" with
      | some rv => .ok (List.zipWith vadd tv rv)
      | none => .error "KeyError: regional_fluctuation"
  else if mode = "estimation" then
    match getCol regionalF "regional_fluctuation" with
    | some rv => .ok (List.zipWith vadd tv rv)
    | none => .ok tv
  else
    if 10 * nWell > 7 * nRegional then
      match getCol localF "local_fluctuation" with
      | some lv => .ok (List.zipWith vadd tv lv)
      | none =>
        match getCol regionalF "regional_fluctuation" with
        | some rv => .ok (List.zipWith vadd tv rv)
        | none => .error "KeyError: regional_fluctuation"
    else
      match getCol regionalF "regional_fluctuation" with
      | some rv => .ok (List.zipWith vadd tv rv)
      | none => .ok tv

/-- LocalRegionalDecomposition._combine_components: copy the well frame and
assign it the estimated column (all zeros when the trend frame has no trend
column, the accumulated estColumn otherwise). -/
def combineComponents (well : PFrame) (targetTrend regionalF localF : PFrame)
    (mode : String) : Except String PFrame :=
  match getCol targetTrend "trend" with
  | some tv =>
    (estColumn tv well.nRows regionalF.nRows regionalF localF mode).map
      (setCol well "estimated")
  | none => .ok (setCol well "estimated" (List.replicate well.nRows (some 0)))

/-- The dictionary decompose_water_levels returns. -/
structure DecompResult where
  trend : List (ℤ × Val)
  localF : List (ℤ × Val)
  regional : List (ℤ × Val)
  estimated : PFrame
  mode : String
  refTrend : List (ℤ × Val)
deriving DecidableEq, Repr

/-- LocalRegionalDecomposition.decompose_water_levels: resolve auto mode with
_detect_mode; in estimation mode replace the manual dates with every observed
date of the target, whatever was passed in; compute the reference and target
trends from those dates, the regional and local fluctuations, and combine.
hasDateCol states whether the target frame carries a literal Date column (the
only thing _detect_mode dispatches on). -/
def decomposeWaterLevels (hasDateCol : Bool) (well ref : WellData)
    (manualDates : Option (List ℤ)) (mode : String) :
    Except String DecompResult :=
  (if mode = "auto" then detectMode well ref hasDateCol else .ok mode).bind
    fun mode2 =>
      let md := if mode2 = "estimation" then some (observedDates well)
                else manualDates
      (calculateTrendComponent ref md).bind fun refTrend =>
        (calculateTrendComponent well md).bind fun tgtTrend =>
          let regional := calculateRegionalFluctuations ref refTrend tgtTrend
          let localFl := calculateLocalFluctuations well tgtTrend
          (combineComponents (wellToFrame well) (pairsToFrame "trend" tgtTrend)
            (pairsToFrame "regional_fluctuation" regional)
            (pairsToFrame "local_fluctuation" localFl) mode2).map
            fun estimated =>
              ⟨tgtTrend, localFl, regional, estimated, mode2, refTrend⟩

/-- One row of the loaded source table, schema already resolved
(well id, treatment unit, date, water level). -/
structure SourceRow where
  well : String
  unit : ℤ
  date : ℤ
  level : Val
deriving DecidableEq, Repr

/-- Whether a source row matches the requested well and treatment unit, the
two filters get_well_data actually applies. -/
def matchesRequest (r : SourceRow) (wellId : String) (tu : Option ℤ) : Bool :=
  r.well = wellId && (match tu with | none => true | some u => r.unit = u)

/-- DataLoader.get_well_data after loading: filter by well id, then by
treatment unit when given, and sort by date.  The start/end date filter of
the source sits inside the branch that raises for a missing date column, so
with a resolved date column it never runs; the parameters are kept to mirror
the signature.  No matching rows yield an empty frame, not an error. -/
def getWellData (rows : List SourceRow) (wellId : String) (tu : Option ℤ)
    (startDate endDate : Option ℤ) : List SourceRow :=
  let _ := startDate
  let _ := endDate
  let w := rows.filter (fun r => r.well = wellId)
  let w := match tu with
    | some u => w.filter (fun r => r.unit = u)
    | none => w
  List.insertionSort (fun a b => a.date ≤ b.date) w

/-! Helper lemmas shared by the claim theorems. -/

theorem foldl_min_le (l : List WellRow) (a : ℤ) :
    l.foldl (fun m x => min m x.date) a ≤ a := by
  induction l generalizing a with
  | nil => exact le_refl a
  | cons r rs ih => exact le_trans (ih (min a r.date)) (min_le_left _ _)

theorem le_foldl_max (l : List WellRow) (a : ℤ) :
    a ≤ l.foldl (fun m x => max m x.date) a := by
  induction l generalizing a with
  | nil => exact le_refl a
  | cons r rs ih => exact le_trans (le_max_left _ _) (ih (max a r.date))

theorem minDate_le_maxDate {w : WellData} (h : w ≠ []) : minDate w ≤ maxDate w := by
  match w with
  | [] => exact absurd rfl h
  | r :: rs =>
    exact le_trans (foldl_min_le rs r.date) (le_foldl_max rs r.date)

theorem daySpan_pos {w : WellData} (h : w ≠ []) : 1 ≤ daySpan w := by
  have := minDate_le_maxDate h
  unfold daySpan
  omega

theorem get_q_zipWith {α β γ : Type} (f : α → β → γ) :
    ∀ (as : List α) (bs : List β) (i : ℕ) (a : α) (b : β),
      as.get? i = some a → bs.get? i = some b →
      (List.zipWith f as bs).get? i = some (f a b) := by
  intro as
  induction as with
  | nil => intro bs i a b ha; simp at ha
  | cons x xs ih =>
    intro bs i a b ha hb
    cases bs with
    | nil => simp at hb
    | cons y ys =>
      cases i with
      | zero =>
        simp only [List.get?] at ha hb
        cases ha; cases hb; rfl
      | succ j =>
        simpa using ih ys j a b (by simpa using ha) (by simpa using hb)

theorem find?_append_of_none {α : Type} (p : α → Bool) (l₁ l₂ : List α)
    (h : l₁.find? p = none) : (l₁ ++ l₂).find? p = l₂.find? p := by
  induction l₁ with
  | nil => rfl
  | cons x xs ih =>
    cases hpx : p x with
    | true => simp [List.find?, hpx] at h
    | false =>
      simp only [List.find?, hpx] at h ⊢
      simpa using ih h

theorem getCol_setCol_self (f : PFrame) (c : String) (v : List Val) :
    getCol (setCol f c v) c = some v := by
  unfold getCol setCol
  cases hf : f.cols.find? (fun p => p.1 = c) with
  | none =>
    simp only [hf, Option.isSome_none, Bool.false_eq_true, if_false]
    rw [find?_append_of_none _ _ _ hf]
    simp [List.find?]
  | some q =>
    simp only [hf, Option.isSome_some, if_true]
    have key : ∀ (cols : List (String × List Val)),
        cols.find? (fun p => p.1 = c) = some q →
        (cols.map (fun p => if p.1 = c then (c, v) else p)).find?
          (fun p => p.1 = c) = some (c, v) := by
      intro cols
      induction cols with
      | nil => intro h; simp [List.find?] at h
      | cons x xs ih =>
        intro h
        by_cases hx : x.1 = c
        · simp only [List.map_cons, if_pos hx, List.find?]
          simp
        · simp only [List.find?, decide_eq_false hx] at h
          simp only [List.map_cons, if_neg hx, List.find?, decide_eq_false hx]
          exact ih h
    rw [key f.cols hf]
    simp

theorem setCol_of_fresh (f : PFrame) (c : String) (v : List Val)
    (h : ∀ p ∈ f.cols, p.1 ≠ c) :
    setCol f c v = ⟨f.nRows, f.cols ++ [(c, v)]⟩ := by
  unfold setCol
  have hnone : f.cols.find? (fun p => p.1 = c) = none := by
    rw [List.find?_eq_none]
    intro p hp
    simpa using h p hp
  simp [hnone]

theorem except_bind_ok {α β : Type} {e : Except String α} {k : α → Except String β}
    {r : β} (h : e.bind k = .ok r) : ∃ a, e = .ok a ∧ k a = .ok r := by
  cases e with
  | error s => simp [Except.bind] at h
  | ok a => exact ⟨a, rfl, by simpa [Except.bind] using h⟩

theorem except_map_ok {α β : Type} {f : α → β} {e : Except String α} {r : β}
    (h : e.map f = .ok r) : ∃ a, e = .ok a ∧ r = f a := by
  cases e with
  | error s => simp [Except.map] at h
  | ok a =>
    refine ⟨a, rfl, ?_⟩
    simp only [Except.map, Except.ok.injEq] at h
    exact h.symm

theorem foldl_min_of_const {d : ℤ} :
    ∀ (l : List WellRow), (∀ r ∈ l, r.date = d) →
      l.foldl (fun m x => min m x.date) d = d := by
  intro l
  induction l with
  | nil => intro _; rfl
  | cons r rs ih =>
    intro h
    have hr : r.date = d := h r (by simp)
    simp only [List.foldl_cons, hr, min_self]
    exact ih (fun x hx => h x (by simp [hx]))

theorem foldl_max_of_const {d : ℤ} :
    ∀ (l : List WellRow), (∀ r ∈ l, r.date = d) →
      l.foldl (fun m x => max m x.date) d = d := by
  intro l
  induction l with
  | nil => intro _; rfl
  | cons r rs ih =>
    intro h
    have hr : r.date = d := h r (by simp)
    simp only [List.foldl_cons, hr, max_self]
    exact ih (fun x hx => h x (by simp [hx]))

theorem dedup_of_const {d : ℤ} :
    ∀ (l : List ℤ), l ≠ [] → (∀ x ∈ l, x = d) → l.dedup = [d] := by
  intro l
  induction l with
  | nil => intro h; exact absurd rfl h
  | cons x xs ih =>
    intro _ hall
    have hx : x = d := hall x (by simp)
    cases xs with
    | nil => simp [hx]
    | cons y ys =>
      have hxs : (y :: ys).dedup = [d] :=
        ih (by simp) (fun z hz => hall z (by simp [List.mem_cons] at hz ⊢; tauto))
      have hy : y = d := hall y (by simp)
      have hmem : x ∈ y :: ys := by rw [hx, ← hy]; simp
      rw [List.dedup_cons_of_mem hmem, hxs]

theorem getCol_pairsToFrame (c : String) (ps : List (ℤ × Val))
    (h : ¬ ("Date" = c)) :
    getCol (pairsToFrame c ps) c = some (ps.map (·.2)) := by
  unfold getCol pairsToFrame
  simp [List.find?, h]

theorem map_snd_zip_le {α β : Type} :
    ∀ (l1 : List α) (l2 : List β), l2.length ≤ l1.length →
      (l1.zip l2).map (fun p => p.2) = l2 := by
  intro l1
  induction l1 with
  | nil =>
    intro l2 h
    cases l2 with
    | nil => rfl
    | cons y ys => simp at h
  | cons x xs ih =>
    intro l2 h
    cases l2 with
    | nil => rfl
    | cons y ys =>
      simp only [List.zip_cons_cons, List.map_cons]
      rw [ih ys (by simpa using h)]

theorem combineComponents_trend (well : PFrame) (t : List (ℤ × Val))
    (rF lF : PFrame) (mode : String) :
    combineComponents well (pairsToFrame "trend" t) rF lF mode =
      (estColumn (t.map (·.2)) well.nRows rF.nRows rF lF mode).map
        (setCol well "estimated") := by
  unfold combineComponents
  rw [getCol_pairsToFrame "trend" t (by decide)]

theorem estColumn_calibration (tv : List Val) (nW nR : ℕ) (rF : PFrame)
    (l : List (ℤ × Val)) :
    estColumn tv nW nR rF (pairsToFrame "local_fluctuation" l) "calibration" =
      .ok (List.zipWith vadd tv (l.map (·.2))) := by
  unfold estColumn
  rw [if_pos rfl, getCol_pairsToFrame "local_fluctuation" l (by decide)]

theorem localFl_map_snd (w : WellData) (t : List (ℤ × Val)) :
    (calculateLocalFluctuations w t).map (fun p => p.2) =
      List.zipWith vsub (levels w) (t.map (fun p => p.2)) := by
  unfold calculateLocalFluctuations
  apply map_snd_zip_le
  simp only [dates, levels, List.length_zipWith, List.length_map]
  omega

/-! Claim C3.  The spec says a zero-length calendar span (single-day window)
makes automatic mode selection fail with InsufficientDataError.  The code has
no such error type anywhere: for a single-day window the span computed is
(max - min).days + 1 = 1, the density is 1 and _detect_mode returns
calibration.  The claim is corrected accordingly. -/

/-- Claim C3 (counterexample): a single-day window does not fail; _detect_mode
returns calibration for a one-row single-day frame. -/
theorem detect_mode_single_day_no_error :
    detectMode [⟨5, some 1⟩] [] true = .ok "calibration" := by decide

/-- Claim C3 (amended): for every nonempty target frame whose rows all fall on
one calendar day, automatic mode selection returns calibration (density 1 over
a span of 1 day) instead of raising anything. -/
theorem detect_mode_single_day_calibration (well ref : WellData) (d : ℤ)
    (h : well ≠ []) (hall : ∀ r ∈ well, r.date = d) :
    detectMode well ref true = .ok "calibration" := by
  have hmin : minDate well = d := by
    match well, h with
    | r :: rs, _ =>
      have hr : r.date = d := hall r (by simp)
      show rs.foldl (fun m x => min m x.date) r.date = d
      rw [hr]
      exact foldl_min_of_const rs (fun x hx => hall x (by simp [hx]))
  have hmax : maxDate well = d := by
    match well, h with
    | r :: rs, _ =>
      have hr : r.date = d := hall r (by simp)
      show rs.foldl (fun m x => max m x.date) r.date = d
      rw [hr]
      exact foldl_max_of_const rs (fun x hx => hall x (by simp [hx]))
  have hspan : daySpan well = 1 := by
    unfold daySpan
    rw [hmin, hmax]
    omega
  have hu : uniqueDateCount well = 1 := by
    unfold uniqueDateCount
    have hd : (dates well).dedup = [d] := by
      apply dedup_of_const
      · simpa [dates] using h
      · intro x hx
        simp only [dates, List.mem_map] at hx
        obtain ⟨r, hr, hrd⟩ := hx
        rw [← hrd]; exact hall r hr
    rw [hd]; rfl
  simp [detectMode, h, hu, hspan]

/-- Claim C3 witness. -/
theorem detect_mode_single_day_calibration_witness :
    (([⟨3, some 2⟩, ⟨3, none⟩] : WellData) ≠ [] ∧
      ∀ r ∈ ([⟨3, some 2⟩, ⟨3, none⟩] : WellData), r.date = 3) ∧
    detectMode [⟨3, some 2⟩, ⟨3, none⟩] [] true = .ok "calibration" :=
  ⟨⟨by decide, by decide⟩,
    detect_mode_single_day_calibration [⟨3, some 2⟩, ⟨3, none⟩] [] 3
      (by decide) (by decide)⟩

/-! Claim C2.  The spec defines the density as
unique_observation_count(target) / calendar_day_span(target), and its data
model calls a missing-value day "no observation".  The code counts
well_data[date_col].nunique(): every distinct date that has a row, whether or
not the water level on it is NaN.  On a frame with rows on 10 consecutive
days of which only 2 carry observations, the code computes density 1.0 and
picks calibration, while the claimed density is 0.2, which demands
estimation.  The rest of the claim (fixed 0.7 threshold, strict comparison,
independence of the reference data) matches the code. -/

/-- The ten-day frame with observations on only the first two days. -/
def c2well : WellData :=
  [⟨0, some 1⟩, ⟨1, some 1⟩, ⟨2, none⟩, ⟨3, none⟩, ⟨4, none⟩,
   ⟨5, none⟩, ⟨6, none⟩, ⟨7, none⟩, ⟨8, none⟩, ⟨9, none⟩]

/-- Claim C2 (counterexample): the code resolves calibration for a frame where
only 2 of the 10 spanned days carry an actual observation; the claimed density
unique_observation_count / calendar_day_span is 2/10, below the 0.7 threshold,
so the claim as stated demands estimation. -/
theorem detect_mode_counts_missing_value_dates :
    detectMode c2well [] true = .ok "calibration" ∧
    ((c2well.filter (fun r => r.level.isSome)).map (·.date)).dedup.length = 2 ∧
    daySpan c2well = 10 := by decide

/-- Claim C2 (amended): automatic mode selection for a nonempty target frame
with a Date column is the pure density rule with density = distinct dates
carrying any row (observed or missing) divided by the inclusive calendar
span: above 0.7 it returns calibration, otherwise estimation, and the
reference data never influences the outcome. -/
theorem detect_mode_density_rule (well ref ref2 : WellData) (h : well ≠ []) :
    detectMode well ref true =
      .ok (if (7 : ℚ) / 10 < (uniqueDateCount well : ℚ) / (daySpan well : ℚ)
           then "calibration" else "estimation") ∧
    detectMode well ref true = detectMode well ref2 true := by
  constructor
  · have hcode : detectMode well ref true =
        .ok (if 10 * (uniqueDateCount well : ℤ) > 7 * daySpan well
             then "calibration" else "estimation") := by
      simp [detectMode, h]
    rw [hcode]
    congr 1
    have hspan : (0 : ℚ) < (daySpan well : ℚ) := by
      have := daySpan_pos h
      exact_mod_cast this
    have hiff : (7 : ℚ) / 10 < (uniqueDateCount well : ℚ) / (daySpan well : ℚ) ↔
        10 * (uniqueDateCount well : ℤ) > 7 * daySpan well := by
      rw [div_lt_div_iff (by norm_num) hspan]
      constructor
      · intro hlt
        have h2 : (7 : ℚ) * (daySpan well : ℚ) <
            10 * (uniqueDateCount well : ℚ) := by linarith
        exact_mod_cast h2
      · intro hgt
        have h2 : (7 : ℚ) * (daySpan well : ℚ) <
            10 * (uniqueDateCount well : ℚ) := by exact_mod_cast hgt
        linarith
    rw [if_congr hiff.symm rfl rfl]
  · simp [detectMode]

/-- Claim C2 witness: a fully observed 2-day frame has density 1 and resolves
to calibration whatever the reference is. -/
theorem detect_mode_density_rule_witness :
    (([⟨0, some 1⟩, ⟨1, some 2⟩] : WellData) ≠ []) ∧
    (detectMode [⟨0, some 1⟩, ⟨1, some 2⟩] [] true =
      .ok (if (7 : ℚ) / 10 <
            (uniqueDateCount [⟨0, some 1⟩, ⟨1, some 2⟩] : ℚ) /
              (daySpan [⟨0, some 1⟩, ⟨1, some 2⟩] : ℚ)
           then "calibration" else "estimation") ∧
     detectMode [⟨0, some 1⟩, ⟨1, some 2⟩] [] true =
       detectMode [⟨0, some 1⟩, ⟨1, some 2⟩] [⟨5, some 7⟩] true) :=
  ⟨by decide,
    detect_mode_density_rule [⟨0, some 1⟩, ⟨1, some 2⟩] [] [⟨5, some 7⟩]
      (by decide)⟩

/-! Claim C9.  The spec says a request naming a well id with no matching rows
raises WellNotFoundError and produces no result.  No error type of that name
exists anywhere in the repository, and get_well_data simply filters: with no
matching rows it returns an empty frame, which estimate_daily_values then
feeds into the decomposition unchecked.  The claim is corrected: the call
returns an empty result instead of failing. -/

/-- A two-row source table for one well W1 in unit 1. -/
def c9rows : List SourceRow :=
  [⟨"W1", 1, 0, some 1⟩, ⟨"W1", 1, 1, some 2⟩]

/-- Claim C9 (counterexample): requesting an absent well id (or a unit the
well is not in) returns the empty frame as an ordinary value; nothing is
raised, where the claim demands a WellNotFoundError. -/
theorem get_well_data_returns_empty_not_error :
    getWellData c9rows "W2" (some 1) none none = [] ∧
    getWellData c9rows "W1" (some 2) none none = [] := by decide

/-- Claim C9 (amended): whenever no row matches the requested well id and
treatment unit, get_well_data returns the empty frame (the requested date
window is never applied, its filter being dead code behind the
missing-date-column branch); no exception is raised. -/
theorem get_well_data_empty_when_no_match (rows : List SourceRow)
    (wellId : String) (tu : Option ℤ) (sd ed : Option ℤ)
    (h : ∀ r ∈ rows, matchesRequest r wellId tu = false) :
    getWellData rows wellId tu sd ed = [] := by
  unfold getWellData
  cases tu with
  | none =>
    have hfil : rows.filter (fun r => r.well = wellId) = [] := by
      rw [List.filter_eq_nil]
      intro r hr
      have := h r hr
      simp [matchesRequest] at this
      simp [this]
    simp [hfil]
  | some u =>
    have hfil : (rows.filter (fun r => r.well = wellId)).filter
        (fun r => r.unit = u) = [] := by
      rw [List.filter_eq_nil]
      intro r hr
      rw [List.mem_filter] at hr
      obtain ⟨hmem, hwell⟩ := hr
      have := h r hmem
      simp [matchesRequest] at this
      simp only [decide_eq_true_eq] at hwell
      have hunit := this hwell
      simp [hunit]
    simp [hfil]

/-- Claim C9 witness. -/
theorem get_well_data_empty_when_no_match_witness :
    (∀ r ∈ c9rows, matchesRequest r "W2" (some 1) = false) ∧
    getWellData c9rows "W2" (some 1) none none = [] :=
  ⟨by decide, get_well_data_empty_when_no_match c9rows "W2" (some 1) none none
    (by decide)⟩

/-! Claim C7.  The regional fluctuation series always has the length of the
target trend, in all three branches of _calculate_regional_fluctuations.  The
hypothesis that the reference frame and its trend have equal length reflects
the numpy subtraction reference_observed - reference_trend, which requires it
and which the pipeline always guarantees. -/

/-- Claim C7 (confirmed): in every branch (positional mapping, interpolation
onto the target dates, and the zero fallback) the regional series length
equals the target trend length, whatever the reference length is. -/
theorem regional_length_matches_target (ref : WellData)
    (refTrend tgtTrend : List (ℤ × Val)) (h : ref.length = refTrend.length) :
    (calculateRegionalFluctuations ref refTrend tgtTrend).length =
      tgtTrend.length := by
  unfold calculateRegionalFluctuations
  by_cases h0 : ref.length > 0
  · simp only [if_pos h0]
    by_cases heq :
        (List.zipWith vsub (levels ref) (refTrend.map (·.2))).length =
          tgtTrend.length
    · simp only [if_pos heq, List.length_zip, List.length_map]
      omega
    · simp only [if_neg heq, List.length_map]
  · simp only [if_neg h0, List.length_map]

/-- Claim C7 witness: a reference of length 1 against a target trend of
length 3 (the interpolation branch). -/
theorem regional_length_matches_target_witness :
    (([⟨0, some 5⟩] : WellData).length = [((0 : ℤ), some (3 : ℚ))].length) ∧
    (calculateRegionalFluctuations [⟨0, some 5⟩] [((0 : ℤ), some (3 : ℚ))]
      [(0, some 1), (1, some 1), (2, some 1)]).length =
      ([((0 : ℤ), (some 1 : Val)), (1, some 1), (2, some 1)]).length :=
  ⟨by decide,
    regional_length_matches_target [⟨0, some 5⟩] [((0 : ℤ), some (3 : ℚ))]
      [(0, some 1), (1, some 1), (2, some 1)] (by decide)⟩

/-! Claim C10.  _combine_components starts from well_data.copy() and assigns
one column named estimated; the caller frame is untouched (the embedding is
pure, mirroring the copy).  But pandas assignment overwrites an existing
column, so a well frame that already carries an estimated column has that
value replaced rather than preserved, against the universally quantified
claim; the claim is corrected to frames without a pre-existing estimated
column. -/

/-- Claim C10 (counterexample): on a well frame already holding an estimated
column with value [some 1], the combination returns the frame with that value
replaced by [some 0]; a pre-existing column value is changed and no new
column is added. -/
theorem combine_overwrites_existing_estimated :
    (combineComponents ⟨1, [("estimated", [some 1])]⟩ ⟨0, []⟩ ⟨0, []⟩ ⟨0, []⟩
        "calibration").toOption = some ⟨1, [("estimated", [some 0])]⟩ ∧
    getCol ⟨1, [("estimated", [some 1])]⟩ "estimated" = some [some 1] := by
  decide

/-- Claim C10 (amended): for every input whose columns do not already include
one named estimated, whenever the combination step returns a frame it is the
well frame with every pre-existing column and value unchanged and exactly the
single column estimated appended at the end, with the row count preserved;
the input frame itself is never mutated, the function starting from a copy. -/
theorem combine_appends_estimated_preserving_columns
    (wellF tF rF lF : PFrame) (mode : String) (res : PFrame)
    (hfresh : ∀ p ∈ wellF.cols, p.1 ≠ "estimated")
    (hrun : combineComponents wellF tF rF lF mode = .ok res) :
    res.nRows = wellF.nRows ∧
    ∃ est, res.cols = wellF.cols ++ [("estimated", est)] := by
  unfold combineComponents at hrun
  cases hT : getCol tF "trend" with
  | none =>
    simp only [hT, Except.ok.injEq] at hrun
    rw [← hrun, setCol_of_fresh wellF "estimated" _ hfresh]
    exact ⟨rfl, _, rfl⟩
  | some tv =>
    simp only [hT] at hrun
    obtain ⟨est, _, hk⟩ := except_map_ok hrun
    rw [hk, setCol_of_fresh wellF "estimated" _ hfresh]
    exact ⟨rfl, _, rfl⟩

/-- Claim C10 witness. -/
theorem combine_appends_estimated_preserving_columns_witness :
    ((∀ p ∈ (⟨1, [("Nappe", [some 4])]⟩ : PFrame).cols, p.1 ≠ "estimated") ∧
      combineComponents ⟨1, [("Nappe", [some 4])]⟩ ⟨0, []⟩ ⟨0, []⟩ ⟨0, []⟩
        "calibration" = .ok ⟨1, [("Nappe", [some 4]), ("estimated", [some 0])]⟩) ∧
    ((⟨1, [("Nappe", [some 4]), ("estimated", [some 0])]⟩ : PFrame).nRows =
        (⟨1, [("Nappe", [some 4])]⟩ : PFrame).nRows ∧
      ∃ est, (⟨1, [("Nappe", [some 4]), ("estimated", [some 0])]⟩ : PFrame).cols =
        (⟨1, [("Nappe", [some 4])]⟩ : PFrame).cols ++ [("estimated", est)]) :=
  ⟨⟨by decide, by decide⟩,
    combine_appends_estimated_preserving_columns
      ⟨1, [("Nappe", [some 4])]⟩ ⟨0, []⟩ ⟨0, []⟩ ⟨0, []⟩ "calibration"
      ⟨1, [("Nappe", [some 4]), ("estimated", [some 0])]⟩
      (by decide) (by decide)⟩

/-! Claim C8.  The spec claims the auto branch of the Compositor re-applies
the density formula of the ModeSelector identically.  The code compares
len(well_data) with 0.7 * len(regional_fluctuations) instead: in the pipeline
the regional series has exactly the target length, so the auto branch picks
the local (calibration) combination whenever the target frame is nonempty,
while _detect_mode can still resolve estimation for the same data.  The two
decisions are different functions and disagree on real inputs. -/

/-- A target frame with 2 observed rows spread over a 100-day span:
_detect_mode sees density 2/100 and resolves estimation. -/
def c8well : WellData := [⟨0, some 1⟩, ⟨99, some 2⟩]

/-- The pipeline components for c8well (values chosen NaN-free or NaN where
convenient: the local fluctuations are NaN, the regional ones are defined). -/
def c8trendF : PFrame := pairsToFrame "trend" [(0, some 0), (99, some 0)]

def c8regF : PFrame :=
  pairsToFrame "regional_fluctuation" [(0, some 2), (99, some 2)]

def c8locF : PFrame := pairsToFrame "local_fluctuation" [(0, none), (99, none)]

/-- Claim C8 (counterexample): on the same data, _detect_mode resolves
estimation while the auto branch of _combine_components behaves exactly as
calibration mode (it adds the local fluctuations) and differently from
estimation mode; the two decisions are not identical. -/
theorem compositor_auto_diverges_from_detect_mode :
    detectMode c8well [] true = .ok "estimation" ∧
    (combineComponents (wellToFrame c8well) c8trendF c8regF c8locF
        "auto").toOption =
      (combineComponents (wellToFrame c8well) c8trendF c8regF c8locF
        "calibration").toOption ∧
    (combineComponents (wellToFrame c8well) c8trendF c8regF c8locF
        "auto").toOption ≠
      (combineComponents (wellToFrame c8well) c8trendF c8regF c8locF
        "estimation").toOption := by decide

/-- Claim C8 (amended): whenever the regional row count equals the (positive)
well row count, which the pipeline always arranges, the auto branch of
_combine_components is the calibration combination, regardless of what the
density rule of _detect_mode would decide. -/
theorem compositor_auto_equals_calibration_choice
    (wellF tF rF lF : PFrame) (hn : 0 < wellF.nRows)
    (hlen : rF.nRows = wellF.nRows) :
    combineComponents wellF tF rF lF "auto" =
      combineComponents wellF tF rF lF "calibration" := by
  have h1 : ¬(("auto" : String) = "calibration") := by decide
  have h2 : ¬(("auto" : String) = "estimation") := by decide
  have hgt : 10 * wellF.nRows > 7 * rF.nRows := by omega
  have hest : ∀ tv, estColumn tv wellF.nRows rF.nRows rF lF "auto" =
      estColumn tv wellF.nRows rF.nRows rF lF "calibration" := by
    intro tv
    unfold estColumn
    rw [if_neg h1, if_neg h2, if_pos hgt, if_pos rfl]
  unfold combineComponents
  simp only [hest]

/-- Claim C8 witness. -/
theorem compositor_auto_equals_calibration_choice_witness :
    (0 < (wellToFrame c8well).nRows ∧ c8regF.nRows = (wellToFrame c8well).nRows) ∧
    combineComponents (wellToFrame c8well) c8trendF c8regF c8locF "auto" =
      combineComponents (wellToFrame c8well) c8trendF c8regF c8locF
        "calibration" :=
  ⟨⟨by decide, by decide⟩,
    compositor_auto_equals_calibration_choice (wellToFrame c8well) c8trendF
      c8regF c8locF (by decide) (by decide)⟩

/-! Claim C6.  Trend estimation is said never to throw for sparse data.  On a
nonempty frame it indeed always produces a result, falling back to the index
regression and to the all-zero trend; but on an EMPTY frame with a nonempty
anchor list the nearest-measurement loop calls idxmin on an empty series,
which raises ValueError, so the universally quantified claim fails and is
corrected to nonempty frames. -/

theorem argmin_foldl_isSome (d : ℤ) :
    ∀ (l : List WellRow) (b : WellRow),
      (l.foldl
        (fun acc r =>
          match acc with
          | none => some r
          | some b2 => if |r.date - d| < |b2.date - d| then some r else some b2)
        (some b)).isSome := by
  intro l
  induction l with
  | nil => intro b; rfl
  | cons r rs ih =>
    intro b
    simp only [List.foldl_cons]
    by_cases hc : |r.date - d| < |b.date - d|
    · simpa [hc] using ih r
    · simpa [hc] using ih b

theorem argminAbsDate_isSome {w : WellData} (h : w ≠ []) (d : ℤ) :
    (argminAbsDate w d).isSome := by
  match w, h with
  | r :: rs, _ =>
    unfold argminAbsDate
    simpa using argmin_foldl_isSome d rs r

theorem closestRow_ok {w : WellData} (h : w ≠ []) (d : ℤ) :
    ∃ y, closestRow w d = .ok y := by
  have hs := argminAbsDate_isSome h d
  cases hb : argminAbsDate w d with
  | none => rw [hb] at hs; simp at hs
  | some b =>
    exact ⟨if |b.date - d| ≤ 7 then some (d, b.level) else none,
      by unfold closestRow; rw [hb]⟩

theorem collectClosest_ok {w : WellData} (h : w ≠ []) :
    ∀ (mds : List ℤ), ∃ l, collectClosest w mds = .ok l := by
  intro mds
  induction mds with
  | nil => exact ⟨[], rfl⟩
  | cons d ds ih =>
    obtain ⟨y, hy⟩ := closestRow_ok h d
    obtain ⟨l, hl⟩ := ih
    cases y with
    | some p => exact ⟨p :: l, by simp [collectClosest, hy, hl, Except.bind]⟩
    | none => exact ⟨l, by simp [collectClosest, hy, hl, Except.bind]⟩

theorem getManualMeasurements_ok {w : WellData} (h : w ≠ []) (mds : List ℤ) :
    ∃ ms, getManualMeasurements w mds = .ok ms := by
  unfold getManualMeasurements
  by_cases hd : (w.filter (fun r => r.date ∈ mds ∧ r.level.isSome)).length > 0
  · exact ⟨_, by rw [if_pos hd]⟩
  · obtain ⟨l, hl⟩ := collectClosest_ok h mds
    exact ⟨l, by rw [if_neg hd]; exact hl⟩

theorem regressionPoints_enumFrom (k : ℕ) :
    ∀ (l : List WellRow),
      ((List.enumFrom k l).filterMap
        (fun p => p.2.level.map (fun y => ((p.1 : ℚ), y)))).length =
      (l.filter (fun r => r.level.isSome)).length := by
  intro l
  induction l generalizing k with
  | nil => rfl
  | cons r rs ih =>
    cases hr : r.level with
    | none =>
      simp only [List.enumFrom, List.filterMap_cons, hr, Option.map_none',
        List.filter_cons, Option.isSome_none, Bool.false_eq_true, if_false]
      exact ih (k + 1)
    | some v =>
      simp only [List.enumFrom, List.filterMap_cons, hr, Option.map_some',
        List.filter_cons, Option.isSome_some, if_true, List.length_cons]
      rw [ih (k + 1)]

theorem regressionPoints_length (w : WellData) :
    (regressionPoints w).length = validObsCount w := by
  unfold regressionPoints validObsCount List.enum
  exact regressionPoints_enumFrom 0 w

/-- Claim C6 (counterexample): on an empty well frame with one requested
anchor date, the trend computation aborts with the idxmin error instead of
degrading; the claim quantifies over every well series and is falsified
here. -/
theorem trend_component_raises_on_empty_frame :
    calculateTrendComponent ([] : WellData) (some [0]) =
      .error "attempt to get argmin of an empty sequence" := by decide

/-- Claim C6 (amended): for every NONEMPTY well frame the trend computation
always returns a result; when at most one anchor measurement is recovered it
falls back to the index regression of _simple_linear_trend, and when fewer
than 2 non-missing observations exist the fallback trend is identically
zero. -/
theorem trend_total_and_fallbacks_on_nonempty (well : WellData)
    (md : Option (List ℤ)) (mm : List (ℤ × Val)) (h : well ≠ []) :
    (∃ t, calculateTrendComponent well md = .ok t) ∧
    (getManualMeasurements well (md.getD (generateBiweeklyDates well)) = .ok mm →
      mm.length ≤ 1 →
      calculateTrendComponent well md =
        .ok ((dates well).zip (simpleLinearTrend well))) ∧
    (validObsCount well < 2 →
      simpleLinearTrend well = List.replicate well.length (some 0)) := by
  refine ⟨?_, ?_, ?_⟩
  · obtain ⟨ms, hms⟩ := getManualMeasurements_ok h
      (md.getD (generateBiweeklyDates well))
    refine ⟨(dates well).zip
      (if ms.length > 1 then interpolateManualMeasurements well ms
       else simpleLinearTrend well), ?_⟩
    unfold calculateTrendComponent
    simp [hms, Except.map]
  · intro hmm hle
    unfold calculateTrendComponent
    simp only [hmm, Except.map]
    have : ¬ mm.length > 1 := by omega
    simp [this]
  · intro hv
    unfold simpleLinearTrend
    rw [if_pos (by rw [regressionPoints_length]; exact hv)]

/-- Claim C6 witness: a one-row frame, whose single recovered anchor forces
the fallback, and whose single valid observation forces the zero trend. -/
theorem trend_total_and_fallbacks_on_nonempty_witness :
    (([⟨0, some 5⟩] : WellData) ≠ []) ∧
    ((∃ t, calculateTrendComponent [⟨0, some 5⟩] none = .ok t) ∧
     (getManualMeasurements [⟨0, some 5⟩]
         ((none : Option (List ℤ)).getD (generateBiweeklyDates [⟨0, some 5⟩])) =
           .ok [(0, some 5)] →
       ([((0 : ℤ), (some 5 : Val))]).length ≤ 1 →
       calculateTrendComponent [⟨0, some 5⟩] none =
         .ok ((dates [⟨0, some 5⟩]).zip (simpleLinearTrend [⟨0, some 5⟩]))) ∧
     (validObsCount [⟨0, some 5⟩] < 2 →
       simpleLinearTrend [⟨0, some 5⟩] =
         List.replicate ([⟨0, some 5⟩] : WellData).length (some 0))) :=
  ⟨by decide,
    trend_total_and_fallbacks_on_nonempty [⟨0, some 5⟩] none [(0, some 5)]
      (by decide)⟩

/-! Claim C4.  The claim says an explicit anchor list is used whenever given.
In the code, decompose_water_levels overwrites manual_dates with the observed
dates of the target whenever the resolved mode is estimation, even when an
explicit list was passed (the inconsistency also flagged as an open question
in the design notes).  Corrected: the explicit list is honoured only outside
estimation mode; estimation mode always anchors at the observed dates; with
no list and outside estimation mode the biweekly dates are used (inside the
trend computation). -/

/-- The target frame of the C4 counterexample: three observed rows. -/
def c4well : WellData := [⟨0, some 1⟩, ⟨10, some 2⟩, ⟨20, some 5⟩]

/-- Claim C4 (counterexample): an estimation-mode decomposition given the
explicit anchor list [0, 10] produces the trend anchored at the observed
dates [0, 10, 20] (value some 5 at date 20), not the trend the explicit list
yields (clamped to some 2 at date 20); the explicit list is ignored. -/
theorem explicit_anchors_ignored_in_estimation :
    (decomposeWaterLevels true c4well [⟨0, none⟩] (some [0, 10])
        "estimation").toOption.map (·.trend) =
      some [(0, some 1), (10, some 2), (20, some 5)] ∧
    (calculateTrendComponent c4well (some [0, 10])).toOption =
      some [((0 : ℤ), (some 1 : Val)), (10, some 2), (20, some 2)] ∧
    ¬ ([((0 : ℤ), (some 1 : Val)), (10, some 2), (20, some 5)] =
        [((0 : ℤ), (some 1 : Val)), (10, some 2), (20, some 2)]) := by decide

/-- Claim C4 (amended): for every decomposition run, whatever mode was
requested (auto included), the target trend in the result is computed from
the observed dates of the target when the RESOLVED mode is estimation
(whatever anchor list was passed), and from the passed anchor list otherwise
(the biweekly dates standing in inside the trend computation when none was
passed). -/
theorem decompose_anchor_dates (hasDate : Bool) (well ref : WellData)
    (md : Option (List ℤ)) (mode : String) (res : DecompResult)
    (hrun : decomposeWaterLevels hasDate well ref md mode = .ok res) :
    calculateTrendComponent well
      (if res.mode = "estimation" then some (observedDates well) else md) =
      .ok res.trend := by
  unfold decomposeWaterLevels at hrun
  obtain ⟨mode2, hm2, hrun2⟩ := except_bind_ok hrun
  beta_reduce at hrun2
  obtain ⟨refT, hrt, hrun3⟩ := except_bind_ok hrun2
  beta_reduce at hrun3
  obtain ⟨tgtT, htt, hrun4⟩ := except_bind_ok hrun3
  beta_reduce at hrun4
  obtain ⟨estF, hc, hres⟩ := except_map_ok hrun4
  subst hres
  exact htt

/-! Claim C5.  When at least 2 anchor measurements are recovered, the trend
is np.interp of the (sorted) anchor pairs at every date of the well timeline:
it sits exactly at the anchor values on the anchor dates, and is clamped to
the boundary anchor values outside the anchor range.  The hypotheses ask the
recovered anchors to carry strictly increasing dates, which is what the
pipeline produces (frames hold strictly increasing unique timestamps) and
what np.interp is specified for. -/

theorem interpGo_at_anchor :
    ∀ (rest : List (ℤ × Val)) (x0 : ℤ) (y0 : Val),
      ((x0, y0) :: rest).Pairwise (fun a b => a.1 < b.1) →
      ∀ p ∈ rest, interpGo x0 y0 rest p.1 = p.2 := by
  intro rest
  induction rest with
  | nil => intro x0 y0 _ p hp; simp at hp
  | cons q r2 ih =>
    intro x0 y0 hpw p hp
    obtain ⟨x1, y1⟩ := q
    have htail : ((x1, y1) :: r2).Pairwise (fun a b => a.1 < b.1) :=
      List.Pairwise.of_cons hpw
    rcases List.mem_cons.mp hp with hph | hpt
    · rw [hph]
      unfold interpGo
      rw [if_neg (lt_irrefl x1), if_pos rfl]
    · have hx1p : x1 < p.1 := (List.pairwise_cons.mp htail).1 p hpt
      unfold interpGo
      rw [if_neg (by omega : ¬ p.1 < x1), if_neg (by omega : ¬ p.1 = x1)]
      exact ih x1 y1 htail p hpt

theorem interpGo_beyond :
    ∀ (rest : List (ℤ × Val)) (x0 : ℤ) (y0 : Val) (x : ℤ),
      (∀ p ∈ rest, p.1 < x) →
      some (interpGo x0 y0 rest x) = ((x0, y0) :: rest).getLast?.map (·.2) := by
  intro rest
  induction rest with
  | nil => intro x0 y0 x _; rfl
  | cons q r2 ih =>
    intro x0 y0 x h
    obtain ⟨x1, y1⟩ := q
    have hx1 : x1 < x := h (x1, y1) (by simp)
    unfold interpGo
    rw [if_neg (by omega : ¬ x < x1), if_neg (by omega : ¬ x = x1)]
    rw [List.getLast?_cons_cons]
    exact ih x1 y1 x (fun p hp => h p (by simp [hp]))

/-- Claim C5 (confirmed): with at least 2 recovered anchor measurements on
strictly increasing dates, the trend component is np.interp of the anchors
evaluated at every timestamp of the timeline, np.interp returns the exact
anchor value on each anchor date, and outside the anchor range it is clamped
to the first and last anchor values (no extrapolation). -/
theorem trend_matches_anchors_and_clamps (well : WellData)
    (md : Option (List ℤ)) (mm : List (ℤ × Val))
    (hmm : getManualMeasurements well
      (md.getD (generateBiweeklyDates well)) = .ok mm)
    (hlen : 2 ≤ mm.length)
    (hsorted : mm.Pairwise (fun a b => a.1 < b.1)) :
    calculateTrendComponent well md =
      .ok ((dates well).zip ((dates well).map (interpPoints mm))) ∧
    (∀ p ∈ mm, interpPoints mm p.1 = p.2) ∧
    (∀ x : ℤ, (∀ p ∈ mm, x < p.1) →
      mm.head?.map (·.2) = some (interpPoints mm x)) ∧
    (∀ x : ℤ, (∀ p ∈ mm, p.1 < x) →
      mm.getLast?.map (·.2) = some (interpPoints mm x)) := by
  have hgt : mm.length > 1 := by omega
  refine ⟨?_, ?_, ?_, ?_⟩
  · unfold calculateTrendComponent
    simp only [hmm, Except.map]
    rw [if_pos hgt]
    unfold interpolateManualMeasurements
    rw [if_neg (by omega : ¬ mm.length < 2),
      List.Sorted.insertionSort_eq (hsorted.imp (fun h => le_of_lt h))]
  · intro p hp
    cases mm with
    | nil => simp at hp
    | cons q rest =>
      obtain ⟨x0, y0⟩ := q
      rcases List.mem_cons.mp hp with hph | hpt
      · subst hph
        simp [interpPoints]
      · have hx0p : x0 < p.1 := (List.pairwise_cons.mp hsorted).1 p hpt
        simp only [interpPoints]
        rw [if_neg (by omega : ¬ p.1 ≤ x0)]
        exact interpGo_at_anchor rest x0 y0 hsorted p hpt
  · intro x hx
    cases mm with
    | nil => simp at hlen
    | cons q rest =>
      obtain ⟨x0, y0⟩ := q
      have hxx0 : x < x0 := hx (x0, y0) (by simp)
      simp only [interpPoints]
      rw [if_pos (by omega : x ≤ x0)]
      rfl
  · intro x hx
    cases mm with
    | nil => simp at hlen
    | cons q rest =>
      obtain ⟨x0, y0⟩ := q
      have hxx0 : x0 < x := hx (x0, y0) (by simp)
      simp only [interpPoints]
      rw [if_neg (by omega : ¬ x ≤ x0)]
      exact (interpGo_beyond rest x0 y0 x
        (fun p hp => hx p (by simp [hp]))).symm

/-- The three-row frame of the C5 witness; its biweekly anchors [0, 14] both
hit observed rows. -/
def c5well : WellData := [⟨0, some 1⟩, ⟨14, some 3⟩, ⟨20, some 2⟩]

/-- Claim C5 witness. -/
theorem trend_matches_anchors_and_clamps_witness :
    (getManualMeasurements c5well
        ((none : Option (List ℤ)).getD (generateBiweeklyDates c5well)) =
        .ok [(0, some 1), (14, some 3)] ∧
      2 ≤ ([((0 : ℤ), (some 1 : Val)), (14, some 3)]).length ∧
      ([((0 : ℤ), (some 1 : Val)), (14, some 3)]).Pairwise
        (fun a b => a.1 < b.1)) ∧
    (calculateTrendComponent c5well none =
      .ok ((dates c5well).zip ((dates c5well).map
        (interpPoints [((0 : ℤ), (some 1 : Val)), (14, some 3)]))) ∧
     (∀ p ∈ [((0 : ℤ), (some 1 : Val)), (14, some 3)],
        interpPoints [((0 : ℤ), (some 1 : Val)), (14, some 3)] p.1 = p.2) ∧
     (∀ x : ℤ, (∀ p ∈ [((0 : ℤ), (some 1 : Val)), (14, some 3)], x < p.1) →
        ([((0 : ℤ), (some 1 : Val)), (14, some 3)]).head?.map (·.2) =
          some (interpPoints [((0 : ℤ), (some 1 : Val)), (14, some 3)] x)) ∧
     (∀ x : ℤ, (∀ p ∈ [((0 : ℤ), (some 1 : Val)), (14, some 3)], p.1 < x) →
        ([((0 : ℤ), (some 1 : Val)), (14, some 3)]).getLast?.map (·.2) =
          some (interpPoints [((0 : ℤ), (some 1 : Val)), (14, some 3)] x))) :=
  ⟨⟨by decide, by decide, by decide⟩,
    trend_matches_anchors_and_clamps c5well none [(0, some 1), (14, some 3)]
      (by decide) (by decide) (by decide)⟩

/-- The all-missing target frame of the C4 witness (its observed-date list is
empty, which is still what overrides the explicit list [100]). -/
def c4wwell : WellData := [⟨0, none⟩, ⟨5, none⟩]

/-- The decomposition result of the C4 witness run. -/
def c4wres : DecompResult :=
  ⟨[(0, some 0), (5, some 0)],
   [(0, none), (5, none)],
   [(0, none), (5, none)],
   ⟨2, [("Date", [some ((0 : ℤ) : ℚ), some ((5 : ℤ) : ℚ)]),
        ("Nappe", [none, none]),
        ("estimated", [none, none])]⟩,
   "estimation",
   [(0, some 0)]⟩

/-- Claim C4 witness: a default auto-mode call over a sparse all-missing
target, resolved to estimation, with the explicit list [100] overridden. -/
theorem decompose_anchor_dates_witness :
    decomposeWaterLevels true c4wwell [⟨0, none⟩] (some [100]) "auto" =
        .ok c4wres ∧
    calculateTrendComponent c4wwell
      (if c4wres.mode = "estimation"
       then some (observedDates c4wwell) else some [100]) = .ok c4wres.trend :=
  ⟨by decide,
    decompose_anchor_dates true c4wwell [⟨0, none⟩] (some [100]) "auto"
      c4wres (by decide)⟩

/-! Claim C1.  In calibration mode the estimated series is trend plus local
fluctuation, and local is observed minus trend on the same timeline, so at
every observed date with a DEFINED trend value the estimate reconstructs the
observation exactly (t + (v - t) = v in exact arithmetic).  The claim as
stated omits that proviso: when the 7-day anchor tolerance recovers a NaN
row as an anchor, the trend is NaN on part of the timeline and the estimate
is NaN at an observed date, which is not the observed value under any
tolerance.  Corrected accordingly. -/

/-- The frame of the C1 counterexample: the biweekly anchor at date 0 falls
on a NaN row (recovered through the 7-day tolerance), poisoning the trend. -/
def c1well : WellData := [⟨0, none⟩, ⟨10, some 5⟩, ⟨20, none⟩]

/-- Claim C1 (counterexample): an explicit calibration decomposition of
c1well yields an estimated column that is NaN everywhere, although date 10
carries the observed value 5; trend + local does not reconstruct the
observation there. -/
theorem calibration_reconstruction_fails_at_nan_trend :
    (decomposeWaterLevels true c1well [] none "calibration").toOption.map
        (fun r => getCol r.estimated "estimated") =
      some (some [none, none, none]) ∧
    (levels c1well).get? 1 = some (some 5) := by decide

/-- Claim C1 (amended): for every decomposition run whose resolved mode is
calibration, at every index holding an observed value v where the computed
trend value is defined (some t), the estimated column holds exactly the
observed value v (trend plus local fluctuation, in exact arithmetic). -/
theorem calibration_reconstructs_where_trend_defined
    (hasDate : Bool) (well ref : WellData) (md : Option (List ℤ))
    (mode : String) (res : DecompResult) (i : ℕ) (v t : ℚ)
    (hrun : decomposeWaterLevels hasDate well ref md mode = .ok res)
    (hmode : res.mode = "calibration")
    (hobs : (levels well).get? i = some (some v))
    (htr : (res.trend.map (fun p => p.2)).get? i = some (some t)) :
    ∃ est, getCol res.estimated "estimated" = some est ∧
      est.get? i = some (some v) := by
  unfold decomposeWaterLevels at hrun
  obtain ⟨mode2, hm2, hrun2⟩ := except_bind_ok hrun
  beta_reduce at hrun2
  obtain ⟨refT, hrt, hrun3⟩ := except_bind_ok hrun2
  beta_reduce at hrun3
  obtain ⟨tgtT, htt, hrun4⟩ := except_bind_ok hrun3
  beta_reduce at hrun4
  obtain ⟨estF, hc, hres⟩ := except_map_ok hrun4
  subst hres
  have hmodec : mode2 = "calibration" := hmode
  have htr2 : (tgtT.map (fun p => p.2)).get? i = some (some t) := htr
  rw [hmodec] at hc
  rw [combineComponents_trend, estColumn_calibration] at hc
  have hestF : estF =
      setCol (wellToFrame well) "estimated"
        (List.zipWith vadd (tgtT.map (fun p => p.2))
          ((calculateLocalFluctuations well tgtT).map (fun p => p.2))) :=
    (Except.ok.inj hc).symm
  show ∃ est, getCol estF "estimated" = some est ∧ est.get? i = some (some v)
  refine ⟨List.zipWith vadd (tgtT.map (fun p => p.2))
    ((calculateLocalFluctuations well tgtT).map (fun p => p.2)), ?_, ?_⟩
  · rw [hestF]
    exact getCol_setCol_self _ _ _
  · rw [localFl_map_snd]
    have hlv : (List.zipWith vsub (levels well)
        (tgtT.map (fun p => p.2))).get? i = some (vsub (some v) (some t)) :=
      get_q_zipWith vsub _ _ i _ _ hobs htr2
    have hcell : (List.zipWith vadd (tgtT.map (fun p => p.2))
        (List.zipWith vsub (levels well) (tgtT.map (fun p => p.2)))).get? i =
        some (vadd (some t) (vsub (some v) (some t))) :=
      get_q_zipWith vadd _ _ i _ _ htr2 hlv
    rw [hcell]
    show some (some (t + (v - t))) = some (some v)
    norm_num

/-- The single-row frame of the C1 witness: its one biweekly anchor is its
observed row, the trend falls back to zero, and the estimate returns the
observation. -/
def c1wwell : WellData := [⟨0, some 1⟩]

/-- The decomposition result of the C1 witness run (written with the exact
unreduced arithmetic cells the computation produces). -/
def c1wres : DecompResult :=
  ⟨[(0, some 0)],
   [(0, some ((1 : ℚ) - 0))],
   [(0, some ((1 : ℚ) - 0))],
   ⟨1, [("Date", [some ((0 : ℤ) : ℚ)]),
        ("Nappe", [some 1]),
        ("estimated", [some ((0 : ℚ) + (1 - 0))])]⟩,
   "calibration",
   [(0, some 0)]⟩

/-- Claim C1 witness. -/
theorem calibration_reconstructs_where_trend_defined_witness :
    (decomposeWaterLevels true c1wwell c1wwell none "calibration" =
        .ok c1wres ∧
      c1wres.mode = "calibration" ∧
      (levels c1wwell).get? 0 = some (some 1) ∧
      (c1wres.trend.map (fun p => p.2)).get? 0 = some (some 0)) ∧
    (∃ est, getCol c1wres.estimated "estimated" = some est ∧
      est.get? 0 = some (some 1)) :=
  ⟨⟨rfl, rfl, by decide, by decide⟩,
    calibration_reconstructs_where_trend_defined true c1wwell c1wwell none
      "calibration" c1wres 0 1 0 rfl rfl (by decide) (by decide)⟩
